import Mathlib

/-!
Verification of the usage-accounting core of the repository: the
`TokenManager` (cost calculation, usage logging, daily summaries) in
`backend/llm_integration/token_manager.py` and the near-duplicate
`CostLogger` in `backend/utils/cost_logger.py`, together with the
`summarize` route handler that returns the mutated token-usage mapping.

Modelling conventions:
- Python floats are modelled by exact rationals (ℚ); the pricing literals
  0.01, 0.03, ... are exact decimals.
- Python dicts (pricing table, summary maps, token_usage) are modelled by
  insertion-ordered association lists `List (String × α)`; dict assignment
  replaces the value in place for an existing key and appends a fresh key
  at the end, exactly as CPython does.
- The per-date log files are modelled by a map from date string to the
  list of lines of that partition file; a line is either blank (skipped by
  the reader), a malformed line (on which `json.loads` raises), or a
  well-formed serialized `LogEntry`.
- The clock (`datetime.now()`) and the outcome of the file append are
  passed as explicit parameters.
-/

namespace LLMAcct

/-- Association-list lookup, mirroring Python `dict` lookup. -/
def lookupA {α : Type} : List (String × α) → String → Option α
  | [], _ => none
  | p :: rest, key => if p.1 = key then some p.2 else lookupA rest key

/-- Python `d[k] = f(d.get(k, dflt))` on an insertion-ordered dict: replace
the binding in place when the key is present, otherwise append `(k, f dflt)`
at the end. -/
def upsert {α : Type} : List (String × α) → String → α → (α → α) → List (String × α)
  | [], k, dflt, f => [(k, f dflt)]
  | p :: rest, k, dflt, f =>
    if p.1 = k then (p.1, f p.2) :: rest else p :: upsert rest k dflt f

/-- Python `d[k] = v`: replace in place when present, else append. -/
def setKey {α : Type} : List (String × α) → String → α → List (String × α)
  | [], k, v => [(k, v)]
  | p :: rest, k, v => if p.1 = k then (p.1, v) :: rest else p :: setKey rest k v

/-- Per-1K-token pricing of a model: the values of the `model_pricing`
dictionaries (`{"input": ..., "output": ...}`). -/
structure Pricing where
  input : ℚ
  output : ℚ
deriving DecidableEq

abbrev PricingTable := List (String × Pricing)

/-- The default `model_pricing` table of `TokenManager.__init__`
(token_manager.py lines 24-30). -/
def defaultModelPricing : PricingTable :=
  [("GPT-4o", ⟨0.01, 0.03⟩),
   ("Gemini-Flash", ⟨0.0035, 0.0035⟩),
   ("DeepSeek", ⟨0.0009, 0.0009⟩),
   ("Claude", ⟨0.008, 0.024⟩),
   ("Grok", ⟨0.005, 0.015⟩)]

/-- The literal fallback `{"input": 0.01, "output": 0.03}` used by
`self.model_pricing.get(model, ...)` (token_manager.py line 50 and
cost_logger.py line 44). -/
def fallbackPricing : Pricing := ⟨0.01, 0.03⟩

/-- `self.model_pricing.get(model, {"input": 0.01, "output": 0.03})`:
the pricing lookup with its fixed default. -/
def rate_for (pt : PricingTable) (model : String) : Pricing :=
  (lookupA pt model).getD fallbackPricing

/-- The dictionary returned by `TokenManager.calculate_cost` on its
success path (token_manager.py lines 57-64). -/
structure CostInfo where
  input_tokens : ℕ
  output_tokens : ℕ
  total_tokens : ℕ
  input_cost : ℚ
  output_cost : ℚ
  cost : ℚ
deriving DecidableEq

/-- `TokenManager.calculate_cost` (token_manager.py lines 36-64). With a
well-typed pricing table the `except` branch (lines 65-75) is unreachable:
the lookup never raises and both rate fields are always present. -/
def calculate_cost (pt : PricingTable) (model : String)
    (input_tokens output_tokens : ℕ) : CostInfo :=
  let pricing := rate_for pt model
  let input_cost := ((input_tokens : ℚ) / 1000) * pricing.input
  let output_cost := ((output_tokens : ℚ) / 1000) * pricing.output
  let total_cost := input_cost + output_cost
  ⟨input_tokens, output_tokens, input_tokens + output_tokens,
   input_cost, output_cost, total_cost⟩

/-- Free-form metadata mapping, stored but never interpreted. -/
abbrev Metadata := List (String × String)

/-- `if metadata:` in Python is a truthiness test: the `metadata` key is
added to the log entry only when the argument is a non-empty dict
(token_manager.py lines 111-112). -/
def normMeta : Option Metadata → Option Metadata
  | none => none
  | some l => if l.isEmpty then none else some l

/-- The `log_entry` dict written by `TokenManager.log_usage`
(token_manager.py lines 103-112): timestamp, model, operation, the spliced
`**cost_info`, and the optional metadata. -/
structure LogEntry where
  timestamp : String
  model : String
  operation : String
  info : CostInfo
  metadata : Option Metadata
deriving DecidableEq

/-- One line of a date-partition `.jsonl` file as seen by the reader:
blank (skipped), malformed (on which `json.loads` raises, carrying the
decode-error message), or a well-formed serialized entry. -/
inductive RawLine
  | blank
  | corrupt (msg : String)
  | entry (e : LogEntry)
deriving DecidableEq

/-- The state of a `TokenManager`: its pricing table and the log
directory's partition files (date string ↦ file lines). A date absent
from `store` is a partition file that does not exist. -/
structure TokenManager where
  model_pricing : PricingTable
  store : List (String × List RawLine)
deriving DecidableEq

/-- A `TokenManager` constructed with default pricing and an empty log
directory. -/
def defaultTM : TokenManager := ⟨defaultModelPricing, []⟩

/-- The dictionary returned by `TokenManager.log_usage`: either the
calculator's `cost_info` (success path, line 129) or the degraded dict of
the `except` branch (lines 133-139), which carries the token counts, a
hard-coded `cost` of 0 and the error text, and has no `input_cost` or
`output_cost` keys. -/
inductive LogUsageResult
  | ok (info : CostInfo)
  | failed (input_tokens output_tokens total_tokens : ℕ) (cost : ℚ) (error : String)
deriving DecidableEq

/-- `TokenManager.log_usage` (token_manager.py lines 77-139).
`now_iso` and `today` stand for `datetime.now().isoformat()` and
`datetime.now().strftime("%Y-%m-%d")`; `appendErr` is the outcome of the
file append: `none` when the write succeeds, `some msg` when `open`/`write`
raises with message `msg`, in which case the `except` branch returns the
degraded dict and the file is left as it was. -/
def log_usage (tm : TokenManager) (now_iso today : String)
    (model operation : String) (input_tokens output_tokens : ℕ)
    (metadata : Option Metadata) (appendErr : Option String) :
    LogUsageResult × TokenManager :=
  let cost_info := calculate_cost tm.model_pricing model input_tokens output_tokens
  let log_entry : LogEntry :=
    ⟨now_iso, model, operation, cost_info, normMeta metadata⟩
  match appendErr with
  | none =>
    (LogUsageResult.ok cost_info,
     ⟨tm.model_pricing,
      upsert tm.store today [] (fun lines => lines ++ [RawLine.entry log_entry])⟩)
  | some msg =>
    (LogUsageResult.failed input_tokens output_tokens
      (input_tokens + output_tokens) 0 msg, tm)

/-- Per-operation rollup inside a model's summary
(token_manager.py lines 203-212). -/
structure OpSummary where
  count : ℕ
  cost : ℚ
  tokens : ℕ
deriving DecidableEq

/-- Per-model rollup inside a daily summary
(token_manager.py lines 188-198). -/
structure ModelSummary where
  cost : ℚ
  input_tokens : ℕ
  output_tokens : ℕ
  operations : List (String × OpSummary)
deriving DecidableEq

/-- The daily summary dict (token_manager.py lines 166-171). -/
structure Summary where
  date : String
  total_cost : ℚ
  total_tokens : ℕ
  models : List (String × ModelSummary)
deriving DecidableEq

def zeroOpSummary : OpSummary := ⟨0, 0, 0⟩

def zeroModelSummary : ModelSummary := ⟨0, 0, 0, []⟩

def emptySummary (date : String) : Summary := ⟨date, 0, 0, []⟩

/-- The per-operation update for one entry
(token_manager.py lines 209-212). -/
def applyOp (e : LogEntry) (os : OpSummary) : OpSummary :=
  ⟨os.count + 1, os.cost + e.info.cost, os.tokens + e.info.total_tokens⟩

/-- The per-model update for one entry (token_manager.py lines 186-212):
accumulate cost and token counts, then upsert the operation rollup. -/
def applyModel (e : LogEntry) (ms : ModelSummary) : ModelSummary :=
  ⟨ms.cost + e.info.cost,
   ms.input_tokens + e.info.input_tokens,
   ms.output_tokens + e.info.output_tokens,
   upsert ms.operations e.operation zeroOpSummary (applyOp e)⟩

/-- The whole-summary update for one entry
(token_manager.py lines 181-212). -/
def applyEntry (s : Summary) (e : LogEntry) : Summary :=
  ⟨s.date,
   s.total_cost + e.info.cost,
   s.total_tokens + e.info.total_tokens,
   upsert s.models e.model zeroModelSummary (applyModel e)⟩

/-- The result of `TokenManager.get_usage_summary`: the summary dict, or
the degraded `{"date": ..., "error": ...}` dict returned by the `except`
branch (token_manager.py lines 216-221). -/
inductive SummaryResult
  | ok (s : Summary)
  | degraded (date : String) (error : String)
deriving DecidableEq

/-- The read loop of `get_usage_summary` (token_manager.py lines 174-213):
blank lines are skipped; a malformed line makes `json.loads` raise, which
the single outer `try` converts into the degraded dict, aborting the whole
read; a well-formed line is folded into the summary. -/
def foldLines (s : Summary) : List RawLine → SummaryResult
  | [] => SummaryResult.ok s
  | RawLine.blank :: rest => foldLines s rest
  | RawLine.corrupt msg :: _ => SummaryResult.degraded s.date msg
  | RawLine.entry e :: rest => foldLines (applyEntry s e) rest

/-- `TokenManager.get_usage_summary` for an explicit `target_date`
(token_manager.py lines 141-221): a missing partition file yields the
all-zero summary; otherwise the file is read line by line. -/
def get_usage_summary (tm : TokenManager) (target_date : String) : SummaryResult :=
  match lookupA tm.store target_date with
  | none => SummaryResult.ok (emptySummary target_date)
  | some lines => foldLines (emptySummary target_date) lines

/-- The `CostLogger.model_pricing` table (cost_logger.py lines 22-28);
textually identical to the `TokenManager` default table — the two modules
are near-duplicates. -/
def costLoggerModelPricing : PricingTable :=
  [("GPT-4o", ⟨0.01, 0.03⟩),
   ("Gemini-Flash", ⟨0.0035, 0.0035⟩),
   ("DeepSeek", ⟨0.0009, 0.0009⟩),
   ("Claude", ⟨0.008, 0.024⟩),
   ("Grok", ⟨0.005, 0.015⟩)]

/-- `CostLogger.log_cost` (cost_logger.py lines 30-64), restricted to the
numeric `token_usage` dicts the route layer passes: it reads
`input_tokens`/`output_tokens` with default 0, computes the costs under
the pricing table with the same fixed fallback, and assigns the three keys
`input_cost`, `output_cost`, `cost` into the caller's dict. The function
returns the mutated dict (in Python the mutation is in place on the
caller's object). -/
def log_cost (pt : PricingTable) (model : String)
    (token_usage : List (String × ℚ)) : List (String × ℚ) :=
  let input_tokens := (lookupA token_usage "input_tokens").getD 0
  let output_tokens := (lookupA token_usage "output_tokens").getD 0
  let pricing := (lookupA pt model).getD ⟨0.01, 0.03⟩
  let input_cost := (input_tokens / 1000) * pricing.input
  let output_cost := (output_tokens / 1000) * pricing.output
  let total_cost := input_cost + output_cost
  setKey (setKey (setKey token_usage "input_cost" input_cost)
    "output_cost" output_cost) "cost" total_cost

/-- The body the `summarize` route returns (summarize.py lines 76-82):
after `cost_logger.log_cost(model, token_usage)` mutates `token_usage` in
place, the handler returns `{"summary": ..., "token_usage": token_usage}`
— i.e. the mutated mapping. -/
structure SummarizeResponse where
  summary : String
  token_usage : List (String × ℚ)
deriving DecidableEq

/-- The tail of the `summarize` handler (summarize.py lines 76-82),
given the LLM response content and its token-usage dict. -/
def summarize_route (pt : PricingTable) (model llm_summary : String)
    (token_usage : List (String × ℚ)) : SummarizeResponse :=
  ⟨llm_summary, log_cost pt model token_usage⟩

/-! ### Association-list lemmas -/

/-- Sum of a projection over the values of an association list. -/
def sumVals {α : Type} (g : α → ℚ) (l : List (String × α)) : ℚ :=
  (l.map (fun p => g p.2)).sum

theorem lookupA_upsert {α : Type} (l : List (String × α)) (k : String) (d : α)
    (f : α → α) (k₂ : String) :
    lookupA (upsert l k d f) k₂ =
      if k = k₂ then some (f ((lookupA l k).getD d)) else lookupA l k₂ := by
  induction l with
  | nil =>
    by_cases h2 : k = k₂ <;> simp [upsert, lookupA, h2]
  | cons p rest ih =>
    by_cases h1 : p.1 = k
    · by_cases h2 : k = k₂
      · simp [upsert, lookupA, h1, h2, h1.trans h2]
      · have h3 : p.1 ≠ k₂ := fun hc => h2 (h1 ▸ hc)
        simp [upsert, lookupA, h1, h2, h3]
    · by_cases h2 : k = k₂
      · by_cases h3 : p.1 = k₂
        · exact absurd (h3.trans h2.symm) h1
        · subst h2
          simp [upsert, lookupA, h1, h3, ih]
      · by_cases h3 : p.1 = k₂
        · have h4 : ¬k₂ = k := fun hc => h2 hc.symm
          simp [upsert, lookupA, h1, h2, h3, h4]
        · simp [upsert, lookupA, h1, h2, h3, ih]

theorem lookupA_setKey {α : Type} (l : List (String × α)) (k : String) (v : α)
    (k₂ : String) :
    lookupA (setKey l k v) k₂ = if k = k₂ then some v else lookupA l k₂ := by
  induction l with
  | nil =>
    by_cases h2 : k = k₂ <;> simp [setKey, lookupA, h2]
  | cons p rest ih =>
    by_cases h1 : p.1 = k
    · by_cases h2 : k = k₂
      · simp [setKey, lookupA, h1, h2, h1.trans h2]
      · have h3 : p.1 ≠ k₂ := fun hc => h2 (h1 ▸ hc)
        simp [setKey, lookupA, h1, h2, h3]
    · by_cases h2 : k = k₂
      · by_cases h3 : p.1 = k₂
        · exact absurd (h3.trans h2.symm) h1
        · subst h2
          simp [setKey, lookupA, h1, h3, ih]
      · by_cases h3 : p.1 = k₂
        · have h4 : ¬k₂ = k := fun hc => h2 hc.symm
          simp [setKey, lookupA, h1, h2, h3, h4]
        · simp [setKey, lookupA, h1, h2, h3, ih]

theorem sumVals_upsert {α : Type} (g : α → ℚ) (l : List (String × α)) (k : String)
    (d : α) (f : α → α) (c : ℚ) (hd : g d = 0) (hf : ∀ v, g (f v) = g v + c) :
    sumVals g (upsert l k d f) = sumVals g l + c := by
  induction l with
  | nil => simp [upsert, sumVals, hf, hd]
  | cons p rest ih =>
    by_cases h1 : p.1 = k
    · simp [upsert, sumVals, h1, hf]
      ring
    · simp [upsert, sumVals, h1] at ih ⊢
      rw [ih]
      ring

theorem mem_upsert {α : Type} {l : List (String × α)} {k : String} {d : α}
    {f : α → α} {q : String × α} (hq : q ∈ upsert l k d f) :
    q ∈ l ∨ ∃ v, q = (k, f v) ∧ (v = d ∨ (k, v) ∈ l) := by
  induction l with
  | nil =>
    simp only [upsert, List.mem_singleton] at hq
    exact Or.inr ⟨d, hq, Or.inl rfl⟩
  | cons p rest ih =>
    by_cases h1 : p.1 = k
    · simp only [upsert, if_pos h1, List.mem_cons] at hq
      rcases hq with h | h
      · refine Or.inr ⟨p.2, by rw [h, h1], Or.inr ?_⟩
        exact List.mem_cons.mpr (Or.inl (by simp [← h1]))
      · exact Or.inl (List.mem_cons_of_mem _ h)
    · simp only [upsert, if_neg h1, List.mem_cons] at hq
      rcases hq with h | h
      · exact Or.inl (by simp [h])
      · rcases ih h with h2 | ⟨v, hv1, hv2⟩
        · exact Or.inl (List.mem_cons_of_mem _ h2)
        · exact Or.inr ⟨v, hv1, hv2.imp_right (List.mem_cons_of_mem _)⟩

theorem lookupA_mem {α : Type} {l : List (String × α)} {k : String} {v : α}
    (h : lookupA l k = some v) : (k, v) ∈ l := by
  induction l with
  | nil => simp [lookupA] at h
  | cons p rest ih =>
    by_cases h1 : p.1 = k
    · simp only [lookupA, if_pos h1, Option.some.injEq] at h
      subst h
      subst h1
      simp
    · simp only [lookupA, if_neg h1] at h
      exact List.mem_cons_of_mem _ (ih h)

/-! ### Aggregator lemmas -/

theorem foldLines_entries (es : List LogEntry) (s : Summary) :
    foldLines s (es.map RawLine.entry) = SummaryResult.ok (es.foldl applyEntry s) := by
  induction es generalizing s with
  | nil => rfl
  | cons e rest ih => simp [foldLines, List.foldl, ih]

theorem foldl_applyEntry_date (es : List LogEntry) (s : Summary) :
    (es.foldl applyEntry s).date = s.date := by
  induction es generalizing s with
  | nil => rfl
  | cons e rest ih => simp [List.foldl, ih, applyEntry]

theorem foldl_applyEntry_total_cost (es : List LogEntry) (s : Summary) :
    (es.foldl applyEntry s).total_cost =
      s.total_cost + (es.map (fun e => e.info.cost)).sum := by
  induction es generalizing s with
  | nil => simp
  | cons e rest ih =>
    simp only [List.foldl_cons, ih, applyEntry, List.map_cons, List.sum_cons]
    ring

theorem foldl_applyEntry_total_tokens (es : List LogEntry) (s : Summary) :
    (es.foldl applyEntry s).total_tokens =
      s.total_tokens + (es.map (fun e => e.info.total_tokens)).sum := by
  induction es generalizing s with
  | nil => simp
  | cons e rest ih =>
    simp only [List.foldl_cons, ih, applyEntry, List.map_cons, List.sum_cons]
    ring

/-- Fold of the per-model update over a list of entries. -/
def mfold (v : ModelSummary) (fs : List LogEntry) : ModelSummary :=
  fs.foldl (fun ms e => applyModel e ms) v

/-- Fold of the per-operation update over a list of entries. -/
def ofold (w : OpSummary) (fs : List LogEntry) : OpSummary :=
  fs.foldl (fun os e => applyOp e os) w

theorem ofold_eq (fs : List LogEntry) (w : OpSummary) :
    ofold w fs = ⟨w.count + fs.length,
      w.cost + (fs.map (fun e => e.info.cost)).sum,
      w.tokens + (fs.map (fun e => e.info.total_tokens)).sum⟩ := by
  induction fs generalizing w with
  | nil => simp [ofold]
  | cons e rest ih =>
    show ofold (applyOp e w) rest = _
    rw [ih]
    simp only [applyOp, OpSummary.mk.injEq, List.length_cons, List.map_cons,
      List.sum_cons]
    refine ⟨by ring, by ring, by ring⟩

theorem mfold_cost (fs : List LogEntry) (v : ModelSummary) :
    (mfold v fs).cost = v.cost + (fs.map (fun e => e.info.cost)).sum := by
  induction fs generalizing v with
  | nil => simp [mfold]
  | cons e rest ih =>
    show (mfold (applyModel e v) rest).cost = _
    simp only [ih, applyModel, List.map_cons, List.sum_cons]
    ring

theorem mfold_input (fs : List LogEntry) (v : ModelSummary) :
    (mfold v fs).input_tokens =
      v.input_tokens + (fs.map (fun e => e.info.input_tokens)).sum := by
  induction fs generalizing v with
  | nil => simp [mfold]
  | cons e rest ih =>
    show (mfold (applyModel e v) rest).input_tokens = _
    simp only [ih, applyModel, List.map_cons, List.sum_cons]
    ring

theorem mfold_output (fs : List LogEntry) (v : ModelSummary) :
    (mfold v fs).output_tokens =
      v.output_tokens + (fs.map (fun e => e.info.output_tokens)).sum := by
  induction fs generalizing v with
  | nil => simp [mfold]
  | cons e rest ih =>
    show (mfold (applyModel e v) rest).output_tokens = _
    simp only [ih, applyModel, List.map_cons, List.sum_cons]
    ring

/-- The per-operation rollup reached after folding the filtered entries of
one operation, starting from an optional existing rollup. -/
def opView : Option OpSummary → List LogEntry → Option OpSummary
  | none, [] => none
  | none, f :: fs => some (ofold zeroOpSummary (f :: fs))
  | some w, fs => some (ofold w fs)

/-- The per-model rollup reached after folding the filtered entries of one
model, starting from an optional existing rollup. -/
def modelView : Option ModelSummary → List LogEntry → Option ModelSummary
  | none, [] => none
  | none, f :: fs => some (mfold zeroModelSummary (f :: fs))
  | some v, fs => some (mfold v fs)

theorem mfold_ops (fs : List LogEntry) (v : ModelSummary) (op : String) :
    lookupA (mfold v fs).operations op =
      opView (lookupA v.operations op) (fs.filter (fun e => e.operation == op)) := by
  induction fs generalizing v with
  | nil =>
    cases h : lookupA v.operations op <;> simp [mfold, opView, ofold, h]
  | cons e rest ih =>
    show lookupA (mfold (applyModel e v) rest).operations op = _
    rw [ih]
    have hup : lookupA (applyModel e v).operations op =
        if e.operation = op then
          some (applyOp e ((lookupA v.operations e.operation).getD zeroOpSummary))
        else lookupA v.operations op := by
      simp only [applyModel]
      exact lookupA_upsert v.operations e.operation zeroOpSummary (applyOp e) op
    by_cases heq : e.operation = op
    · subst heq
      rw [hup, if_pos rfl]
      rw [List.filter_cons, if_pos (by simp)]
      cases h : lookupA v.operations e.operation <;>
        simp [opView, ofold, List.foldl_cons, h]
    · rw [hup, if_neg heq]
      rw [List.filter_cons, if_neg (by simp [heq])]

theorem foldl_applyEntry_models (es : List LogEntry) (s : Summary) (m : String) :
    lookupA (es.foldl applyEntry s).models m =
      modelView (lookupA s.models m) (es.filter (fun e => e.model == m)) := by
  induction es generalizing s with
  | nil =>
    cases h : lookupA s.models m <;> simp [modelView, mfold, h]
  | cons e rest ih =>
    show lookupA (rest.foldl applyEntry (applyEntry s e)).models m = _
    rw [ih]
    have hup : lookupA (applyEntry s e).models m =
        if e.model = m then
          some (applyModel e ((lookupA s.models e.model).getD zeroModelSummary))
        else lookupA s.models m := by
      simp only [applyEntry]
      exact lookupA_upsert s.models e.model zeroModelSummary (applyModel e) m
    by_cases heq : e.model = m
    · subst heq
      rw [hup, if_pos rfl]
      rw [List.filter_cons, if_pos (by simp)]
      cases h : lookupA s.models e.model <;>
        simp [modelView, mfold, List.foldl_cons, h]
    · rw [hup, if_neg heq]
      rw [List.filter_cons, if_neg (by simp [heq])]

/-! ### Hierarchical additivity invariant -/

/-- A model rollup is additive when its cost is the sum of its
per-operation costs. -/
def modelAdditive (ms : ModelSummary) : Prop :=
  ms.cost = sumVals OpSummary.cost ms.operations

/-- A summary is additive when its total cost is the sum of its per-model
costs and every model rollup is itself additive. -/
def summaryAdditive (s : Summary) : Prop :=
  s.total_cost = sumVals ModelSummary.cost s.models ∧
    ∀ p ∈ s.models, modelAdditive p.2

theorem applyEntry_additive {s : Summary} (hs : summaryAdditive s) (e : LogEntry) :
    summaryAdditive (applyEntry s e) := by
  obtain ⟨h1, h2⟩ := hs
  constructor
  · show s.total_cost + e.info.cost =
      sumVals ModelSummary.cost (upsert s.models e.model zeroModelSummary (applyModel e))
    rw [sumVals_upsert ModelSummary.cost s.models e.model zeroModelSummary
      (applyModel e) e.info.cost rfl (fun v => rfl), h1]
  · intro p hp
    rcases mem_upsert hp with hmem | ⟨v, hv1, hv2⟩
    · exact h2 p hmem
    · have hv : modelAdditive v := by
        rcases hv2 with rfl | hvm
        · rfl
        · exact h2 (e.model, v) hvm
      rw [hv1]
      show modelAdditive (applyModel e v)
      show v.cost + e.info.cost =
        sumVals OpSummary.cost (upsert v.operations e.operation zeroOpSummary (applyOp e))
      rw [sumVals_upsert OpSummary.cost v.operations e.operation zeroOpSummary
        (applyOp e) e.info.cost rfl (fun w => rfl), hv]

theorem foldl_applyEntry_additive (es : List LogEntry) (s : Summary)
    (hs : summaryAdditive s) : summaryAdditive (es.foldl applyEntry s) := by
  induction es generalizing s with
  | nil => exact hs
  | cons e rest ih => exact ih _ (applyEntry_additive hs e)

theorem emptySummary_additive (d : String) : summaryAdditive (emptySummary d) :=
  ⟨rfl, fun p hp => absurd hp (List.not_mem_nil p)⟩

/-! ### Round-trip infrastructure -/

/-- The record sequence the read loop of `get_usage_summary` recovers from
one partition file: blank lines are skipped, a malformed line raises (the
whole read fails, `none`), a well-formed line yields its record in file
order. -/
def readRecords : List RawLine → Option (List LogEntry)
  | [] => some []
  | RawLine.blank :: rest => readRecords rest
  | RawLine.corrupt _ :: _ => none
  | RawLine.entry e :: rest => (readRecords rest).map (fun es => e :: es)

/-- One call of `log_usage`, with its clock reading. -/
structure UsageRequest where
  now_iso : String
  model : String
  operation : String
  input_tokens : ℕ
  output_tokens : ℕ
  metadata : Option Metadata
deriving DecidableEq

/-- The log entry `log_usage` writes for a request under pricing `pt`. -/
def mkEntry (pt : PricingTable) (r : UsageRequest) : LogEntry :=
  ⟨r.now_iso, r.model, r.operation,
   calculate_cost pt r.model r.input_tokens r.output_tokens,
   normMeta r.metadata⟩

/-- A sequence of `log_usage` calls on one date, each append succeeding. -/
def logAll (tm : TokenManager) (today : String) (reqs : List UsageRequest) :
    TokenManager :=
  reqs.foldl (fun acc r =>
    (log_usage acc r.now_iso today r.model r.operation r.input_tokens
      r.output_tokens r.metadata none).2) tm

theorem logAll_partition_some (reqs : List UsageRequest) (tm : TokenManager)
    (today : String) (cur : List RawLine)
    (h : lookupA tm.store today = some cur) :
    lookupA (logAll tm today reqs).store today =
      some (cur ++ reqs.map (fun r => RawLine.entry (mkEntry tm.model_pricing r))) := by
  induction reqs generalizing tm cur with
  | nil => simp [logAll, h]
  | cons r rest ih =>
    simp only [logAll, List.foldl_cons]
    have hstep : lookupA (log_usage tm r.now_iso today r.model r.operation
        r.input_tokens r.output_tokens r.metadata none).2.store today =
        some (cur ++ [RawLine.entry (mkEntry tm.model_pricing r)]) := by
      simp only [log_usage]
      rw [lookupA_upsert, if_pos rfl, h]
      rfl
    have hpr : (log_usage tm r.now_iso today r.model r.operation r.input_tokens
        r.output_tokens r.metadata none).2.model_pricing = tm.model_pricing := rfl
    have hrec := ih _ _ hstep
    simp only [logAll] at hrec
    rw [hrec, hpr]
    simp [List.append_assoc]

theorem readRecords_entries (es : List LogEntry) :
    readRecords (es.map RawLine.entry) = some es := by
  induction es with
  | nil => rfl
  | cons e rest ih => simp [readRecords, ih]

/-! ### Python dict equality on summaries -/

/-- Python `==` on the per-operation dict: key-wise equality (CPython dict
equality ignores insertion order). -/
def opsEquiv (a b : List (String × OpSummary)) : Prop :=
  ∀ k : String, lookupA a k = lookupA b k

/-- Python `==` on a per-model rollup dict. -/
def msEquiv (a b : ModelSummary) : Prop :=
  a.cost = b.cost ∧ a.input_tokens = b.input_tokens ∧
    a.output_tokens = b.output_tokens ∧ opsEquiv a.operations b.operations

/-- Python `==` on the models dict: key-wise, with equal nested rollups. -/
def modelsEquiv (a b : List (String × ModelSummary)) : Prop :=
  ∀ k : String,
    (lookupA a k = none ∧ lookupA b k = none) ∨
      ∃ x y, lookupA a k = some x ∧ lookupA b k = some y ∧ msEquiv x y

/-- Python `==` on two summary dicts: equal scalar fields and key-wise
equal nested dicts. -/
def summaryEquiv (a b : Summary) : Prop :=
  a.date = b.date ∧ a.total_cost = b.total_cost ∧
    a.total_tokens = b.total_tokens ∧ modelsEquiv a.models b.models

theorem ofold_perm {fs₁ fs₂ : List LogEntry} (h : fs₁.Perm fs₂) (w : OpSummary) :
    ofold w fs₁ = ofold w fs₂ := by
  have h1 := h.length_eq
  have h2 := (h.map (fun e => e.info.cost)).sum_eq
  have h3 := (h.map (fun e => e.info.total_tokens)).sum_eq
  rw [ofold_eq, ofold_eq, h1, h2, h3]

theorem opView_perm {fs₁ fs₂ : List LogEntry} (h : fs₁.Perm fs₂)
    (o : Option OpSummary) : opView o fs₁ = opView o fs₂ := by
  cases o with
  | some w => simp [opView, ofold_perm h]
  | none =>
    cases fs₁ with
    | nil =>
      have he : [] = fs₂ := h.nil_eq
      rw [← he]
    | cons f fs =>
      cases fs₂ with
      | nil => simp at h
      | cons g gs =>
        simp only [opView]
        rw [ofold_perm h]

theorem mfold_msEquiv {fs₁ fs₂ : List LogEntry} (h : fs₁.Perm fs₂)
    (v : ModelSummary) : msEquiv (mfold v fs₁) (mfold v fs₂) := by
  refine ⟨?_, ?_, ?_, ?_⟩
  · rw [mfold_cost, mfold_cost, (h.map (fun e => e.info.cost)).sum_eq]
  · rw [mfold_input, mfold_input, (h.map (fun e => e.info.input_tokens)).sum_eq]
  · rw [mfold_output, mfold_output, (h.map (fun e => e.info.output_tokens)).sum_eq]
  · intro k
    rw [mfold_ops, mfold_ops]
    exact opView_perm (h.filter _) _

theorem modelView_perm {fs₁ fs₂ : List LogEntry} (h : fs₁.Perm fs₂)
    (o : Option ModelSummary) :
    (modelView o fs₁ = none ∧ modelView o fs₂ = none) ∨
      ∃ x y, modelView o fs₁ = some x ∧ modelView o fs₂ = some y ∧ msEquiv x y := by
  cases o with
  | some v => exact Or.inr ⟨_, _, rfl, rfl, mfold_msEquiv h v⟩
  | none =>
    cases fs₁ with
    | nil =>
      have he : [] = fs₂ := h.nil_eq
      rw [← he]
      exact Or.inl ⟨rfl, rfl⟩
    | cons f fs =>
      cases fs₂ with
      | nil => simp at h
      | cons g gs =>
        exact Or.inr ⟨_, _, rfl, rfl, mfold_msEquiv h zeroModelSummary⟩

theorem foldl_applyEntry_perm {es₁ es₂ : List LogEntry} (h : es₁.Perm es₂)
    (d : String) :
    summaryEquiv (es₁.foldl applyEntry (emptySummary d))
      (es₂.foldl applyEntry (emptySummary d)) := by
  refine ⟨?_, ?_, ?_, ?_⟩
  · rw [foldl_applyEntry_date, foldl_applyEntry_date]
  · rw [foldl_applyEntry_total_cost, foldl_applyEntry_total_cost,
      (h.map (fun e => e.info.cost)).sum_eq]
  · rw [foldl_applyEntry_total_tokens, foldl_applyEntry_total_tokens,
      (h.map (fun e => e.info.total_tokens)).sum_eq]
  · intro k
    rw [foldl_applyEntry_models, foldl_applyEntry_models]
    exact modelView_perm (h.filter _) _

/-! ### Sample data for concrete instantiations -/

/-- Whether a partition line is malformed. -/
def RawLine.isCorrupt : RawLine → Bool
  | RawLine.corrupt _ => true
  | _ => false

def w2Entries : List LogEntry :=
  [⟨"t1", "GPT-4o", "summarize", ⟨1000, 500, 1500, 0.01, 0.015, 0.025⟩, none⟩,
   ⟨"t2", "GPT-4o", "ask_question", ⟨200, 100, 300, 0.002, 0.003, 0.005⟩, none⟩]

def w2TM : TokenManager :=
  ⟨defaultModelPricing, [("2024-01-01", w2Entries.map RawLine.entry)]⟩

def c4Valid : List LogEntry :=
  [⟨"t1", "GPT-4o", "summarize", ⟨1000, 500, 1500, 0.01, 0.015, 0.025⟩, none⟩,
   ⟨"t2", "GPT-4o", "summarize", ⟨1000, 500, 1500, 0.01, 0.015, 0.025⟩, none⟩]

def c4TM : TokenManager :=
  ⟨defaultModelPricing,
   [("2024-01-01",
     [RawLine.entry ⟨"t1", "GPT-4o", "summarize", ⟨1000, 500, 1500, 0.01, 0.015, 0.025⟩, none⟩,
      RawLine.corrupt "Expecting value: line 2 column 1 (char 0)",
      RawLine.entry ⟨"t2", "GPT-4o", "summarize", ⟨1000, 500, 1500, 0.01, 0.015, 0.025⟩, none⟩])]⟩

def w7Reqs : List UsageRequest :=
  [⟨"t1", "GPT-4o", "summarize", 1000, 500, none⟩,
   ⟨"t2", "Claude", "ask_question", 200, 100, some [("pdf", "a")]⟩]

/-! ### Claims -/

/-- C1: for every model string and non-negative integer token counts, the
Cost Calculator returns input_cost = (i/1000)·input_rate(m), output_cost =
(o/1000)·output_rate(m), total_cost = input_cost + output_cost and
total_tokens = i + o; in particular on ("GPT-4o", 1000, 500) it yields
input_cost 0.01, output_cost 0.015, cost 0.025 and total_tokens 1500. -/
theorem C1_calculate_cost_formula (pt : PricingTable) (m : String) (i o : ℕ) :
    (calculate_cost pt m i o).input_cost = ((i : ℚ) / 1000) * (rate_for pt m).input ∧
    (calculate_cost pt m i o).output_cost = ((o : ℚ) / 1000) * (rate_for pt m).output ∧
    (calculate_cost pt m i o).cost =
      (calculate_cost pt m i o).input_cost + (calculate_cost pt m i o).output_cost ∧
    (calculate_cost pt m i o).total_tokens = i + o ∧
    calculate_cost defaultModelPricing "GPT-4o" 1000 500 =
      ⟨1000, 500, 1500, 0.01, 0.015, 0.025⟩ :=
  ⟨rfl, rfl, rfl, rfl, by
    norm_num [calculate_cost, rate_for, lookupA, defaultModelPricing, fallbackPricing]⟩

/-- C2: for every date partition of well-formed records, the summary is
hierarchically additive: its total_cost is the sum of the per-model costs,
and each model's cost is the sum of that model's per-operation costs. -/
theorem C2_summary_hierarchically_additive (tm : TokenManager) (date : String)
    (es : List LogEntry)
    (h : lookupA tm.store date = some (es.map RawLine.entry)) :
    ∃ s, get_usage_summary tm date = SummaryResult.ok s ∧
      s.total_cost = sumVals ModelSummary.cost s.models ∧
      ∀ p ∈ s.models, p.2.cost = sumVals OpSummary.cost p.2.operations := by
  refine ⟨es.foldl applyEntry (emptySummary date), ?_, ?_, ?_⟩
  · simp only [get_usage_summary, h]
    exact foldLines_entries es (emptySummary date)
  · exact (foldl_applyEntry_additive es (emptySummary date)
      (emptySummary_additive date)).1
  · exact fun p hp => (foldl_applyEntry_additive es (emptySummary date)
      (emptySummary_additive date)).2 p hp

/-- Witness for C2 at a concrete two-entry partition. -/
theorem C2_summary_hierarchically_additive_witness :
    lookupA w2TM.store "2024-01-01" = some (w2Entries.map RawLine.entry) ∧
    (∃ s, get_usage_summary w2TM "2024-01-01" = SummaryResult.ok s ∧
      s.total_cost = sumVals ModelSummary.cost s.models ∧
      ∀ p ∈ s.models, p.2.cost = sumVals OpSummary.cost p.2.operations) :=
  ⟨rfl, C2_summary_hierarchically_additive w2TM "2024-01-01" w2Entries rfl⟩

/-- C3 counterexample: when the underlying append fails, `log_usage` does
not return the breakdown computed by the Calculator — the `except` branch
returns the degraded dict with cost 0 instead. -/
theorem C3_append_failure_counterexample :
    (log_usage defaultTM "t" "2024-01-01" "GPT-4o" "summarize" 1000 500 none
        (some "disk full")).1 ≠
      LogUsageResult.ok (calculate_cost defaultTM.model_pricing "GPT-4o" 1000 500) := by
  decide

/-- C3 (amended): `log_usage` returns the Calculator's breakdown when the
append succeeds; when the append fails it catches the error and returns
the degraded dict (token counts, total_tokens, cost 0 and the error text,
without input_cost/output_cost) — not the computed breakdown — leaving the
store unchanged, and in neither case does it raise to the caller. -/
theorem C3_append_failure_amended (tm : TokenManager)
    (ts today model op : String) (i o : ℕ) (md : Option Metadata) (msg : String) :
    (log_usage tm ts today model op i o md none).1 =
      LogUsageResult.ok (calculate_cost tm.model_pricing model i o) ∧
    (log_usage tm ts today model op i o md (some msg)).1 =
      LogUsageResult.failed i o (i + o) 0 msg ∧
    (log_usage tm ts today model op i o md (some msg)).2 = tm :=
  ⟨rfl, rfl, rfl⟩

/-- C4 counterexample: a partition holding two well-formed records with a
malformed line between them is not summarized over the remaining valid
records — the whole read degrades to the `{date, error}` dict. -/
theorem C4_corrupt_entry_counterexample :
    get_usage_summary c4TM "2024-01-01" =
      SummaryResult.degraded "2024-01-01" "Expecting value: line 2 column 1 (char 0)" ∧
    get_usage_summary c4TM "2024-01-01" ≠
      SummaryResult.ok (c4Valid.foldl applyEntry (emptySummary "2024-01-01")) := by
  have hval : get_usage_summary c4TM "2024-01-01" =
      SummaryResult.degraded "2024-01-01"
        "Expecting value: line 2 column 1 (char 0)" := rfl
  refine ⟨hval, ?_⟩
  rw [hval]
  intro hc
  exact SummaryResult.noConfusion hc

theorem foldLines_corrupt (suf : List RawLine) (msg : String)
    (pre : List RawLine) (s : Summary)
    (hpre : ∀ l ∈ pre, l.isCorrupt = false) :
    foldLines s (pre ++ RawLine.corrupt msg :: suf) =
      SummaryResult.degraded s.date msg := by
  induction pre generalizing s with
  | nil => rfl
  | cons l rest ih =>
    have hrest : ∀ x ∈ rest, x.isCorrupt = false :=
      fun x hx => hpre x (List.mem_cons_of_mem _ hx)
    cases l with
    | blank =>
      show foldLines s (rest ++ RawLine.corrupt msg :: suf) = _
      exact ih s hrest
    | corrupt m =>
      have := hpre (RawLine.corrupt m) (List.mem_cons_self _ _)
      simp [RawLine.isCorrupt] at this
    | entry e =>
      show foldLines (applyEntry s e) (rest ++ RawLine.corrupt msg :: suf) = _
      rw [ih (applyEntry s e) hrest]
      rfl

/-- C4 (amended): a malformed entry is not skipped: the first corrupt line
makes `json.loads` raise, the whole read is aborted, and
`get_usage_summary` returns the degraded `{date, error}` dict (the
aggregate over the remaining valid records is lost); the error does not
propagate to the caller. -/
theorem C4_corrupt_entry_amended (tm : TokenManager) (date msg : String)
    (pre suf : List RawLine)
    (hstore : lookupA tm.store date = some (pre ++ RawLine.corrupt msg :: suf))
    (hpre : ∀ l ∈ pre, l.isCorrupt = false) :
    get_usage_summary tm date = SummaryResult.degraded date msg := by
  simp only [get_usage_summary, hstore]
  exact foldLines_corrupt suf msg pre (emptySummary date) hpre

/-- Witness for C4 (amended) on the concrete corrupted partition. -/
theorem C4_corrupt_entry_amended_witness :
    lookupA c4TM.store "2024-01-01" =
      some ([RawLine.entry ⟨"t1", "GPT-4o", "summarize",
        ⟨1000, 500, 1500, 0.01, 0.015, 0.025⟩, none⟩] ++
        RawLine.corrupt "Expecting value: line 2 column 1 (char 0)" ::
        [RawLine.entry ⟨"t2", "GPT-4o", "summarize",
          ⟨1000, 500, 1500, 0.01, 0.015, 0.025⟩, none⟩]) ∧
    (∀ l ∈ [RawLine.entry (⟨"t1", "GPT-4o", "summarize",
        ⟨1000, 500, 1500, 0.01, 0.015, 0.025⟩, none⟩ : LogEntry)],
      l.isCorrupt = false) ∧
    get_usage_summary c4TM "2024-01-01" =
      SummaryResult.degraded "2024-01-01" "Expecting value: line 2 column 1 (char 0)" :=
  ⟨rfl, by decide,
   C4_corrupt_entry_amended c4TM "2024-01-01"
     "Expecting value: line 2 column 1 (char 0)"
     [RawLine.entry ⟨"t1", "GPT-4o", "summarize",
       ⟨1000, 500, 1500, 0.01, 0.015, 0.025⟩, none⟩]
     [RawLine.entry ⟨"t2", "GPT-4o", "summarize",
       ⟨1000, 500, 1500, 0.01, 0.015, 0.025⟩, none⟩]
     rfl (by decide)⟩

/-- C5: the pricing lookup is total: it returns the configured rates when
the model is in the table and the fixed fallback ⟨0.01, 0.03⟩ otherwise;
"UnknownModel" is not in the default table, and
`log_usage("UnknownModel", "x", 1000, 1000)` returns cost 0.04. -/
theorem C5_pricing_fallback (pt : PricingTable) (m : String) :
    rate_for pt m = (lookupA pt m).getD ⟨0.01, 0.03⟩ ∧
    lookupA defaultModelPricing "UnknownModel" = none ∧
    (log_usage defaultTM "t" "2024-01-01" "UnknownModel" "x" 1000 1000 none none).1 =
      LogUsageResult.ok ⟨1000, 1000, 2000, 0.01, 0.03, 0.04⟩ :=
  ⟨rfl, by decide, by
    norm_num +decide [log_usage, calculate_cost, rate_for, lookupA, defaultTM,
      defaultModelPricing, fallbackPricing]⟩

/-- C6: for a date with no recorded writes — partition file missing, or
present but empty — `get_usage_summary` returns the summary with all
totals zero and an empty models mapping, and does not raise. -/
theorem C6_empty_partition (tm tm2 : TokenManager) (date : String)
    (h : lookupA tm.store date = none)
    (h2 : lookupA tm2.store date = some []) :
    get_usage_summary tm date = SummaryResult.ok ⟨date, 0, 0, []⟩ ∧
    get_usage_summary tm2 date = SummaryResult.ok ⟨date, 0, 0, []⟩ := by
  constructor
  · simp only [get_usage_summary, h]
    rfl
  · simp only [get_usage_summary, h2]
    rfl

/-- Witness for C6: a missing partition and an empty partition. -/
theorem C6_empty_partition_witness :
    lookupA defaultTM.store "2024-01-01" = none ∧
    lookupA (⟨defaultModelPricing, [("2024-01-01", [])]⟩ : TokenManager).store
      "2024-01-01" = some [] ∧
    (get_usage_summary defaultTM "2024-01-01" =
      SummaryResult.ok ⟨"2024-01-01", 0, 0, []⟩ ∧
     get_usage_summary (⟨defaultModelPricing, [("2024-01-01", [])]⟩ : TokenManager)
       "2024-01-01" = SummaryResult.ok ⟨"2024-01-01", 0, 0, []⟩) :=
  ⟨rfl, rfl,
   C6_empty_partition defaultTM ⟨defaultModelPricing, [("2024-01-01", [])]⟩
     "2024-01-01" rfl rfl⟩

theorem readRecords_map_entry {α : Type} (g : α → LogEntry) (l : List α) :
    readRecords (l.map (fun x => RawLine.entry (g x))) = some (l.map g) := by
  induction l with
  | nil => rfl
  | cons x rest ih => simp [readRecords, ih]

/-- C7: appending N usage records to one fresh date partition and reading
that partition back yields exactly N records with every field preserved
value-for-value (here even in append order). -/
theorem C7_round_trip (tm : TokenManager) (today : String)
    (reqs : List UsageRequest) (h : lookupA tm.store today = none) :
    readRecords ((lookupA (logAll tm today reqs).store today).getD []) =
      some (reqs.map (mkEntry tm.model_pricing)) ∧
    (reqs.map (mkEntry tm.model_pricing)).length = reqs.length := by
  constructor
  · cases reqs with
    | nil => simp [logAll, h, readRecords]
    | cons r rest =>
      simp only [logAll, List.foldl_cons]
      have hstep : lookupA (log_usage tm r.now_iso today r.model r.operation
          r.input_tokens r.output_tokens r.metadata none).2.store today =
          some [RawLine.entry (mkEntry tm.model_pricing r)] := by
        simp only [log_usage]
        rw [lookupA_upsert, if_pos rfl, h]
        rfl
      have hpr : (log_usage tm r.now_iso today r.model r.operation r.input_tokens
          r.output_tokens r.metadata none).2.model_pricing = tm.model_pricing := rfl
      have hp := logAll_partition_some rest _ today _ hstep
      simp only [logAll] at hp
      rw [hp, hpr]
      simp only [Option.getD_some, List.singleton_append]
      exact readRecords_map_entry (mkEntry tm.model_pricing) (r :: rest)
  · simp

/-- Witness for C7 with two concrete requests on a fresh manager. -/
theorem C7_round_trip_witness :
    lookupA defaultTM.store "2024-01-01" = none ∧
    (readRecords ((lookupA (logAll defaultTM "2024-01-01" w7Reqs).store
        "2024-01-01").getD []) =
      some (w7Reqs.map (mkEntry defaultTM.model_pricing)) ∧
     (w7Reqs.map (mkEntry defaultTM.model_pricing)).length = w7Reqs.length) :=
  ⟨rfl, C7_round_trip defaultTM "2024-01-01" w7Reqs rfl⟩

/-- C8: the Aggregator's fold is order-independent: two partitions holding
permutations of the same records summarize to the same DailySummary (the
same dict under Python dict equality, which ignores insertion order). -/
theorem C8_order_independence (tm1 tm2 : TokenManager) (date : String)
    (es1 es2 : List LogEntry)
    (h1 : lookupA tm1.store date = some (es1.map RawLine.entry))
    (h2 : lookupA tm2.store date = some (es2.map RawLine.entry))
    (hperm : es1.Perm es2) :
    ∃ s1 s2, get_usage_summary tm1 date = SummaryResult.ok s1 ∧
      get_usage_summary tm2 date = SummaryResult.ok s2 ∧ summaryEquiv s1 s2 := by
  refine ⟨_, _, ?_, ?_, foldl_applyEntry_perm hperm date⟩
  · simp only [get_usage_summary, h1]
    exact foldLines_entries es1 (emptySummary date)
  · simp only [get_usage_summary, h2]
    exact foldLines_entries es2 (emptySummary date)

/-- Witness for C8: the two-entry partition of `w2TM` against its
reversal. -/
theorem C8_order_independence_witness :
    lookupA w2TM.store "2024-01-01" = some (w2Entries.map RawLine.entry) ∧
    lookupA (⟨defaultModelPricing,
        [("2024-01-01", w2Entries.reverse.map RawLine.entry)]⟩ : TokenManager).store
      "2024-01-01" = some (w2Entries.reverse.map RawLine.entry) ∧
    w2Entries.Perm w2Entries.reverse ∧
    (∃ s1 s2, get_usage_summary w2TM "2024-01-01" = SummaryResult.ok s1 ∧
      get_usage_summary (⟨defaultModelPricing,
        [("2024-01-01", w2Entries.reverse.map RawLine.entry)]⟩ : TokenManager)
        "2024-01-01" = SummaryResult.ok s2 ∧ summaryEquiv s1 s2) :=
  ⟨rfl, rfl, (List.reverse_perm w2Entries).symm,
   C8_order_independence w2TM
     ⟨defaultModelPricing, [("2024-01-01", w2Entries.reverse.map RawLine.entry)]⟩
     "2024-01-01" w2Entries w2Entries.reverse rfl rfl
     (List.reverse_perm w2Entries).symm⟩

/-- C9: when every configured rate is non-negative (the fallback rates
0.01/0.03 always are), the Calculator's input_cost, output_cost and total
cost are non-negative for all non-negative integer token counts. -/
theorem C9_cost_nonneg (pt : PricingTable) (m : String) (i o : ℕ)
    (h : ∀ p ∈ pt, 0 ≤ p.2.input ∧ 0 ≤ p.2.output) :
    0 ≤ (calculate_cost pt m i o).input_cost ∧
    0 ≤ (calculate_cost pt m i o).output_cost ∧
    0 ≤ (calculate_cost pt m i o).cost := by
  have hr : 0 ≤ (rate_for pt m).input ∧ 0 ≤ (rate_for pt m).output := by
    cases hl : lookupA pt m with
    | none =>
      simp only [rate_for, hl, Option.getD_none]
      constructor <;> norm_num [fallbackPricing]
    | some p =>
      have hmem := h (m, p) (lookupA_mem hl)
      simpa [rate_for, hl] using hmem
  have hi : (0 : ℚ) ≤ (i : ℚ) / 1000 := by positivity
  have ho : (0 : ℚ) ≤ (o : ℚ) / 1000 := by positivity
  have e1 : (calculate_cost pt m i o).input_cost =
      ((i : ℚ) / 1000) * (rate_for pt m).input := rfl
  have e2 : (calculate_cost pt m i o).output_cost =
      ((o : ℚ) / 1000) * (rate_for pt m).output := rfl
  have e3 : (calculate_cost pt m i o).cost =
      ((i : ℚ) / 1000) * (rate_for pt m).input +
        ((o : ℚ) / 1000) * (rate_for pt m).output := rfl
  rw [e1, e2, e3]
  exact ⟨mul_nonneg hi hr.1, mul_nonneg ho hr.2,
    add_nonneg (mul_nonneg hi hr.1) (mul_nonneg ho hr.2)⟩

/-- Witness for C9 on the default pricing table. -/
theorem C9_cost_nonneg_witness :
    (∀ p ∈ defaultModelPricing, 0 ≤ p.2.input ∧ 0 ≤ p.2.output) ∧
    (0 ≤ (calculate_cost defaultModelPricing "GPT-4o" 1000 500).input_cost ∧
     0 ≤ (calculate_cost defaultModelPricing "GPT-4o" 1000 500).output_cost ∧
     0 ≤ (calculate_cost defaultModelPricing "GPT-4o" 1000 500).cost) :=
  ⟨by norm_num [defaultModelPricing],
   C9_cost_nonneg defaultModelPricing "GPT-4o" 1000 500
     (by norm_num [defaultModelPricing])⟩

/-- C10 counterexample: a `token_usage` dict that already has a `cost` key
does not keep it unchanged — `log_cost` overwrites it. -/
theorem C10_overwrites_existing_counterexample :
    lookupA (log_cost costLoggerModelPricing "GPT-4o"
      [("input_tokens", 1000), ("output_tokens", 0), ("cost", 99)]) "cost" ≠
      lookupA ([("input_tokens", 1000), ("output_tokens", 0), ("cost", 99)] :
        List (String × ℚ)) "cost" := by
  norm_num +decide [log_cost, setKey, lookupA, costLoggerModelPricing]

/-- C10 (amended): `log_cost` mutates the caller's `token_usage` mapping,
assigning the keys input_cost, output_cost and cost from the token counts
and pricing (overwriting them if already present); every other key is left
unchanged; and the summarize handler returns the mutated mapping. -/
theorem C10_log_cost_amended (pt : PricingTable) (m s : String)
    (tu : List (String × ℚ)) (k : String) :
    lookupA (log_cost pt m tu) k =
      (if "cost" = k then
        some ((lookupA tu "input_tokens").getD 0 / 1000 * (rate_for pt m).input +
          (lookupA tu "output_tokens").getD 0 / 1000 * (rate_for pt m).output)
       else if "output_cost" = k then
        some ((lookupA tu "output_tokens").getD 0 / 1000 * (rate_for pt m).output)
       else if "input_cost" = k then
        some ((lookupA tu "input_tokens").getD 0 / 1000 * (rate_for pt m).input)
       else lookupA tu k) ∧
    (summarize_route pt m s tu).token_usage = log_cost pt m tu := by
  constructor
  · simp only [log_cost]
    rw [lookupA_setKey, lookupA_setKey, lookupA_setKey]
    rfl
  · rfl

end LLMAcct
